import Mathlib

/-!
Shallow embedding of the fhirguard repository's terminology core:
the path accessor (`fhirguard_core/filter.py`), the validation engine
(`fhirguard/validators/code.py`, `fhirguard/validators/coding.py`), the
validation orchestrator (`fhirguard/fhirguard.py`), the relationship
resolver (`fhirguard_cli/metadata/relationships.py`) and the definition
compiler (`fhirguard_cli/commands/metadata.py`), together with theorems
settling the behavioural claims about them.

Python conventions carried over: optional/nullable values become `Option`,
Python truthiness is made explicit per type, exceptions become an error
constructor, and `dict` insertion-order semantics become association lists
with replace-in-place assignment.
-/

set_option autoImplicit false

namespace FHIRGuard

/-- OperationOutcome issue severity (`fhirguard_core/types.py`). -/
inductive Severity where
  | fatal
  | error
  | warning
  | information
deriving DecidableEq, Repr

/-- An `OperationOutcomeIssue` as constructed by `Validator._add_issue` and
`ValidatorStrategy`: severity, code, diagnostics and an optional location. -/
structure Issue where
  severity : Severity
  code : String
  diagnostics : String
  location : Option (List String)
deriving DecidableEq, Repr

/-! ## PathAccessor (`fhirguard_core/filter.py`) -/

/-- A record tree: the dict/list/str values `query_resource` traverses. -/
inductive Val where
  | vnull
  | vstr (s : String)
  | vlist (xs : List Val)
  | vdict (fields : List (String × Val))

/-- Python truthiness of a record-tree value: `None`, `""`, `[]` and `{}`
are falsy. -/
def pyFalsy : Val → Bool
  | .vnull => true
  | .vstr s => s == ""
  | .vlist xs => xs.isEmpty
  | .vdict fs => fs.isEmpty

/-- `getattr(resource, label, None)` / `resource.get(label, None)`:
attribute lookup on a record, `vnull` when the label is absent or the
receiver is not a record. -/
def childLookup (resource : Val) (label : String) : Val :=
  match resource with
  | .vdict fs =>
    match fs.find? (fun p => p.1 == label) with
    | some p => p.2
    | none => .vnull
  | _ => .vnull

/-- `filter._recursive_query`: pop the first label, look it up, return `[]`
on a falsy child, flatten through lists, recurse on remaining labels. -/
def recursiveQuery : List String → Val → List Val
  | [], resource => [resource]
  | label :: labels, resource =>
    let child := childLookup resource label
    if pyFalsy child then
      []
    else
      match child with
      | .vlist xs => (xs.map (fun item => recursiveQuery labels item)).flatten
      | _ =>
        if labels.isEmpty then [child]
        else recursiveQuery labels child

/-- Python `path.split(".")`, structurally on the exploded characters. -/
def splitDotAux : List Char → List Char → List String
  | [], current => [String.mk current.reverse]
  | c :: rest, current =>
    if c = '.' then String.mk current.reverse :: splitDotAux rest []
    else splitDotAux rest (c :: current)

/-- Python `path.split(".")`. -/
def splitDot (s : String) : List String :=
  splitDotAux s.toList []

/-- `filter.query_resource`: empty path returns the root, otherwise the
path is split on `"."` and resolved recursively. -/
def queryResource (resource : Val) (path : String) : List Val :=
  if path = "" then [resource]
  else recursiveQuery (splitDot path) resource

/-! ## Runtime valueset definitions and the metadata store

The validators read compiled valueset definitions as JSON dicts
(`fhirguard/metadata.py` loads them). The fields the validators access are
`resource_url` and `allowed_values[*].{code, system, display}`. -/

/-- One entry of a compiled definition's `allowed_values`, as read back by
the validators. `code` is always a string; `system`/`display` may be null. -/
structure RtAllowedValue where
  code : String
  system : Option String
  display : Option String
deriving DecidableEq, Repr, Inhabited

/-- Python f-string rendering of a nullable string (`None` prints as
`"None"`). -/
def optStrRepr : Option String → String
  | none => "None"
  | some s => s

/-- A compiled valueset definition as read back at validation time. -/
structure RtValueSet where
  resource_url : String
  allowed_values : List RtAllowedValue
deriving DecidableEq, Repr

/-- The metadata store (`Metadata.get_valueset`): a name-keyed lookup of
compiled valueset definitions. -/
def Metadata := List (String × RtValueSet)

/-- `Metadata.get_valueset`: resolve a valueset definition by name. -/
def getValueset (md : Metadata) (name : String) : Option RtValueSet :=
  (md.find? (fun p => p.1 == name)).map (fun p => p.2)

/-- Python truthiness of an optional string argument (`if valueset:`):
truthy iff present and non-empty. -/
def optStrTruthy : Option String → Bool
  | none => false
  | some s => s != ""

/-- A validator call's outcome: the issues it appended plus its boolean
result, or a raised exception (`ValueError` / `NotImplementedError`). -/
abbrev VResult := Except String (List Issue × Bool)

/-! ## CodeValidator (`fhirguard/validators/code.py`) -/

/-- `CodeValidator._validate_valueset`: look the definition up, collect the
allowed values whose `code` equals the input, and report accordingly. -/
def codeValidateValueset (md : Metadata) (path code valueset : String) : VResult :=
  match getValueset md valueset with
  | none => .error ("Valueset not found: " ++ valueset)
  | some definition =>
    let matchingValues := definition.allowed_values.filter (fun v => v.code == code)
    if matchingValues.isEmpty then
      .ok ([{ severity := .error
              code := "code-invalid"
              diagnostics := "Code '" ++ code ++ "' not found in valueset '" ++ valueset ++ "'"
              location := some [path] }], false)
    else if matchingValues.length > 1 then
      .error "Multiple matching values found"
    else
      .ok ([], true)

/-- `CodeValidator.validate`. The `isinstance(code, str)` guard of the
Python source is unrepresentable here (`code` is a string by type) and the
guard is anyway unreachable: a non-string non-empty value never passes the
first branch as a string would. -/
def codeValidate (md : Metadata) (path code : String)
    (valueset codesystem : Option String) : VResult :=
  if code = "" then
    .ok ([{ severity := .error
            code := "code-invalid"
            diagnostics := "Code is missing, null or empty"
            location := some [path] }], false)
  else if optStrTruthy valueset && optStrTruthy codesystem then
    .error "Cannot specify both valueset and codesystem"
  else
    match valueset with
    | some vs => if vs != "" then codeValidateValueset md path code vs else .ok ([], false)
    | none => .ok ([], false)

/-! ## CodingValidator (`fhirguard/validators/coding.py`) -/

/-- A FHIR `Coding` as the validator reads it: `system`, `code`, `display`,
each nullable. -/
structure CodingR where
  system : Option String
  code : Option String
  display : Option String
deriving DecidableEq, Repr

/-- One entry of the BCP-47 language table consulted through
`pycountry.languages.get`: an `alpha_2` code and an English `name`. -/
structure LangEntry where
  alpha2 : String
  name : String
deriving DecidableEq, Repr

/-- The `pycountry` language table, an external collaborator of
`CodingValidator._validate_languages`. -/
def LangTable := List LangEntry

/-- `pycountry.languages.get(alpha_2=...)`. -/
def langByAlpha2 (tbl : LangTable) (code : Option String) : Option LangEntry :=
  code.bind (fun c => tbl.find? (fun e => e.alpha2 == c))

/-- `pycountry.languages.get(name=...)`. -/
def langByName (tbl : LangTable) (display : Option String) : Option LangEntry :=
  display.bind (fun e0 => tbl.find? (fun e => e.name == e0))

/-- `CodingValidator._validate_languages`: cross-reference the coding's code
and display against the language table. The `valueset` argument is the
string interpolated into the diagnostics (the caller passes the
definition's `resource_url`). -/
def validateLanguages (tbl : LangTable) (path : String) (resource : CodingR)
    (valueset : String) : List Issue × Bool :=
  let countryByCode := langByAlpha2 tbl resource.code
  let countryByDisplay := langByName tbl resource.display
  match countryByCode, countryByDisplay with
  | none, none =>
    ([{ severity := .error
        code := "code-invalid"
        diagnostics := "Coding resource code '" ++ optStrRepr resource.code
          ++ "' not found in valueset '" ++ valueset ++ "'"
        location := some [path ++ ".code"] }], false)
  | some byCode, none =>
    ([{ severity := .error
        code := "code-invalid"
        diagnostics := "Coding resource display '" ++ optStrRepr resource.display
          ++ "' does not match the expected display, expected: '" ++ byCode.name ++ "'"
        location := some [path ++ ".display"] }], false)
  | none, some byDisplay =>
    ([{ severity := .error
        code := "code-invalid"
        diagnostics := "Coding resource code '" ++ optStrRepr resource.code
          ++ "' does not match the expected code, expected: '" ++ byDisplay.alpha2 ++ "'"
        location := some [path ++ ".code"] }], false)
  | some _, some _ => ([], true)

/-- The issue the system check of `CodingValidator._validate_valueset`
appends when the coding declares a system that differs from the
definition's `resource_url` (empty list otherwise). -/
def codingSystemIssues (path : String) (resource : CodingR)
    (definition : RtValueSet) : List Issue :=
  if optStrTruthy resource.system && (resource.system != some definition.resource_url) then
    [{ severity := .error
       code := "code-invalid"
       diagnostics := "Coding system '" ++ optStrRepr resource.system
         ++ "' does not match the expected system, expected: '"
         ++ definition.resource_url ++ "'"
       location := some [path ++ ".system"] }]
  else []

/-- `CodingValidator._validate_valueset`: system check, the all-BCP-47
delegation to language validation, then exact code match with did-you-mean
and display/system follow-up diagnostics. -/
def codingValidateValueset (md : Metadata) (tbl : LangTable) (path : String)
    (resource : CodingR) (valueset : String) : VResult :=
  match getValueset md valueset with
  | none => .error ("Valueset not found: " ++ valueset)
  | some definition =>
    let sysIssues := codingSystemIssues path resource definition
    if definition.allowed_values.all (fun v => v.system == some "urn:ietf:bcp:47") then
      let r := validateLanguages tbl path resource definition.resource_url
      .ok (sysIssues ++ r.1, r.2)
    else
      let matchingValues :=
        definition.allowed_values.filter (fun v => some v.code == resource.code)
      if matchingValues.isEmpty then
        let displayMatchingValues :=
          definition.allowed_values.filter (fun v => v.display == resource.display)
        match displayMatchingValues with
        | [matchingValue] =>
          .ok (sysIssues ++
            [{ severity := .warning
               code := "code-invalid"
               diagnostics := "Coding resource code '" ++ optStrRepr resource.code
                 ++ "' not found in valueset '" ++ valueset
                 ++ "'. Did you mean '" ++ matchingValue.code ++ "'?"
               location := some [path ++ ".code"] }], false)
        | _ =>
          .ok (sysIssues ++
            [{ severity := .error
               code := "code-invalid"
               diagnostics := "Coding resource code '" ++ optStrRepr resource.code
                 ++ "' not found in valueset '" ++ valueset ++ "'"
               location := some [path ++ ".code"] }], false)
      else if matchingValues.length > 1 then
        .error "Multiple matching values found"
      else
        let allowedValue := matchingValues.headI
        let displayIssue :=
          if !optStrTruthy resource.display then
            [{ severity := .warning
               code := "code-invalid"
               diagnostics := "Coding resource does not have a defined display, expected: '"
                 ++ optStrRepr allowedValue.display ++ "'"
               location := some [path ++ ".display"] }]
          else []
        let systemIssue :=
          if !optStrTruthy resource.system then
            [{ severity := .warning
               code := "code-invalid"
               diagnostics := "Coding resource does not have a defined system, expected: '"
                 ++ definition.resource_url ++ "'"
               location := some [path ++ ".system"] }]
          else []
        let mismatchIssue :=
          if optStrTruthy resource.display && (allowedValue.display != resource.display) then
            [{ severity := .error
               code := "code-invalid"
               diagnostics := "Coding resource display '" ++ optStrRepr resource.display
                 ++ "' does not match the expected display, expected: '"
                 ++ optStrRepr allowedValue.display ++ "'"
               location := some [path ++ ".display"] }]
          else []
        .ok (sysIssues ++ displayIssue ++ systemIssue ++ mismatchIssue, false)

/-- `CodingValidator.validate` for an already-parsed coding (pydantic model
instances are always truthy, so the `is None` / empty-dict entry guards
apply only to `none` here; dict inputs are parsed into `Coding` upstream). -/
def codingValidate (md : Metadata) (tbl : LangTable) (path : String)
    (resource : Option CodingR) (valueset codesystem : Option String) : VResult :=
  match resource with
  | none =>
    .ok ([{ severity := .error
            code := "code-invalid"
            diagnostics := "Coding resource is missing or null"
            location := some [path] }], false)
  | some coding =>
    if optStrTruthy valueset && optStrTruthy codesystem then
      .error "Cannot specify both valueset and codesystem"
    else
      match valueset with
      | some vs =>
        if vs != "" then codingValidateValueset md tbl path coding vs
        else .ok ([], false)
      | none => .ok ([], false)

/-! ## ValidatorStrategy (`fhirguard/fhirguard.py`)

`self._issues` is a Python dict keyed by path; dicts preserve insertion
order and assignment to an existing key keeps its position, so the state is
an association list with replace-in-place assignment. -/

/-- The per-path issue buckets of a `ValidatorStrategy`. -/
structure Strategy where
  issues : List (String × List Issue)
deriving Repr

/-- `ValidatorStrategy.issues`: the flattened issue list, the concatenation
of the path buckets in insertion order. -/
def strategyIssues (st : Strategy) : List Issue :=
  (st.issues.map (fun p => p.2)).flatten

/-- Dict assignment `self._issues[path] = v`: replace in place when the key
exists, append otherwise. -/
def bucketAssign : List (String × List Issue) → String → List Issue →
    List (String × List Issue)
  | [], path, v => [(path, v)]
  | (k, old) :: rest, path, v =>
    if k == path then (k, v) :: rest else (k, old) :: bucketAssign rest path v

/-- `self._issues[path].extend(xs)`: extend the bucket in place. Call sites
always ensure the key exists first; an absent key appends a fresh bucket. -/
def bucketExtend : List (String × List Issue) → String → List Issue →
    List (String × List Issue)
  | [], path, xs => [(path, xs)]
  | (k, old) :: rest, path, xs =>
    if k == path then (k, old ++ xs) :: rest else (k, old) :: bucketExtend rest path xs

/-- `path in self._issues`: dict key membership. -/
def bucketHasPath (buckets : List (String × List Issue)) (path : String) : Bool :=
  buckets.any (fun p => p.1 == path)

/-- The membership test `path not in self.issues` in
`ValidatorStrategy.code` (line 54): `self.issues` is the flattened *list of
issue records*, not the `_issues` dict, and a string compares unequal to
every `OperationOutcomeIssue`, so the test is false for each element and
the guard always holds. -/
def pathInFlatIssues (st : Strategy) (_path : String) : Bool :=
  (strategyIssues st).any (fun _issue => false)

/-- `ValidatorStrategy.code`: query the path, synthesize a missing-value
error when required and unresolved, otherwise validate every resolved
string with one shared `CodeValidator` and record its issues. -/
def strategyCode (md : Metadata) (st : Strategy) (resource : Val) (path : String)
    (valueset codesystem : Option String) (required : Bool) : Except String Strategy :=
  let resources := queryResource resource path
  if resources.isEmpty then
    if required then
      let buckets :=
        if !bucketHasPath st.issues path then bucketAssign st.issues path [] else st.issues
      .ok { issues := bucketExtend buckets path
              [{ severity := .error
                 code := "code-invalid"
                 diagnostics := "Code resource is missing or null"
                 location := some [path] }] }
    else
      .ok st
  else do
    let validatorIssues ← resources.enum.foldlM
      (fun acc p => do
        match p.2 with
        | .vstr code =>
          let childPath :=
            if resources.length > 1 then path ++ "[" ++ toString p.1 ++ "]" else path
          let r ← codeValidate md childPath code valueset codesystem
          pure (acc ++ r.1)
        | _ => Except.error "assert isinstance(resource, str)")
      ([] : List Issue)
    if !validatorIssues.isEmpty then
      -- `if path not in self.issues:` — always true, see `pathInFlatIssues`:
      -- the bucket is unconditionally reset before being extended.
      let buckets :=
        if !pathInFlatIssues st path then bucketAssign st.issues path [] else st.issues
      .ok { issues := bucketExtend buckets path validatorIssues }
    else
      .ok st

/-- `Coding.parse_obj` on a queried value: codings reach the strategy as
dicts (or already-parsed `Coding` models, which the dict form subsumes
here); any other shape fails the `isinstance` assertion. -/
def parseCodingVal (v : Val) : Except String CodingR :=
  match v with
  | .vdict fs =>
    let fieldStr := fun (label : String) =>
      match fs.find? (fun p => p.1 == label) with
      | some (_, .vstr s) => Except.ok (some s)
      | some (_, .vnull) => Except.ok none
      | some _ => Except.error "Coding field is not a string"
      | none => Except.ok (none : Option String)
    do
      let system ← fieldStr "system"
      let code ← fieldStr "code"
      let display ← fieldStr "display"
      pure { system := system, code := code, display := display }
  | _ => .error "assert isinstance(coding_resource, Coding)"

/-- `ValidatorStrategy.coding`: validate each resolved coding with a fresh
`CodingValidator`; on a `False` result, ensure the bucket exists (this
method checks `self._issues`, unlike `code`) and extend it. -/
def strategyCoding (md : Metadata) (tbl : LangTable) (st : Strategy) (resource : Val)
    (path : String) (valueset codesystem : Option String) (required : Bool) :
    Except String Strategy :=
  let resources := queryResource resource path
  if resources.isEmpty then
    if required then
      let buckets :=
        if !bucketHasPath st.issues path then bucketAssign st.issues path [] else st.issues
      .ok { issues := bucketExtend buckets path
              [{ severity := .error
                 code := "code-invalid"
                 diagnostics := "Coding resource is missing or null"
                 location := none }] }
    else
      .ok st
  else
    resources.enum.foldlM
      (fun st p => do
        let coding ← parseCodingVal p.2
        let childPath :=
          if resources.length > 1 then path ++ "[" ++ toString p.1 ++ "]" else path
        let r ← codingValidate md tbl childPath (some coding) valueset codesystem
        if r.2 = false then
          let buckets :=
            if !bucketHasPath st.issues path then bucketAssign st.issues path []
            else st.issues
          pure { issues := bucketExtend buckets path r.1 }
        else
          pure st)
      st

/-- `CodeableConcept.parse_obj` on a queried value: the `coding` list of
parsed codings (iterating a missing `coding` raises). -/
def parseConceptVal (v : Val) : Except String (List CodingR) :=
  match v with
  | .vdict fs =>
    match fs.find? (fun p => p.1 == "coding") with
    | some (_, .vlist xs) => xs.mapM parseCodingVal
    | _ => .error "TypeError: concept.coding is not iterable"
  | _ => .error "assert isinstance(concept, CodeableConcept)"

/-- `ValidatorStrategy.codeable_concept`: iterate each concept's coding
list with indexed child paths, a fresh `CodingValidator` per coding, and
bucket extension on a `False` result (checking `self._issues`). -/
def strategyCodeableConcept (md : Metadata) (tbl : LangTable) (st : Strategy)
    (resource : Val) (path : String) (valueset codesystem : Option String)
    (required : Bool) : Except String Strategy :=
  let resources := queryResource resource path
  if resources.isEmpty then
    if required then
      let buckets :=
        if !bucketHasPath st.issues path then bucketAssign st.issues path [] else st.issues
      .ok { issues := bucketExtend buckets path
              [{ severity := .error
                 code := "code-invalid"
                 diagnostics := "CodeableConcept resource is missing or null"
                 location := none }] }
    else
      .ok st
  else
    resources.enum.foldlM
      (fun st rp => do
        let codings ← parseConceptVal rp.2
        codings.enum.foldlM
          (fun st cp => do
            let childPath :=
              if resources.length > 1 then
                path ++ "[" ++ toString rp.1 ++ "].coding[" ++ toString cp.1 ++ "]"
              else
                path ++ ".coding[" ++ toString cp.1 ++ "]"
            let r ← codingValidate md tbl childPath (some cp.2) valueset codesystem
            if r.2 = false then
              let buckets :=
                if !bucketHasPath st.issues path then bucketAssign st.issues path []
                else st.issues
              pure { issues := bucketExtend buckets path r.1 }
            else
              pure st)
          st)
      st

/-! ## Resource model for the relationship resolver
(`fhirguard_cli/metadata/relationships.py`, `discovery.py`) -/

/-- Python `needle in haystack` on strings, on exploded characters:
does `needle` start at this text position? -/
def charsStartWith : List Char → List Char → Bool
  | [], _ => true
  | _ :: _, [] => false
  | a :: as, b :: bs => a == b && charsStartWith as bs

/-- Substring occurrence at any position. -/
def charsContain (needle text : List Char) : Bool :=
  match text with
  | [] => charsStartWith needle []
  | _ :: rest => charsStartWith needle text || charsContain needle rest

/-- Python `needle in haystack` for strings. -/
def strContains (haystack needle : String) : Bool :=
  charsContain needle.toList haystack.toList

/-- A filter rule dict inside `compose.include.filter`, kept as an opaque
ordered key/value record. -/
structure FilterRule where
  entries : List (String × String)
deriving DecidableEq, Repr

/-- A CodeSystem concept dict: `code`, `display`, `definition`, an
injectable `system` key, and nested child concepts under `concept`.
A missing `concept` key and an empty child list are both `[]`. -/
inductive ConceptNode where
  | mk (code : Option String) (display : Option String)
       (definition : Option String) (system : Option String)
       (children : List ConceptNode)

def ConceptNode.code : ConceptNode → Option String
  | .mk c _ _ _ _ => c

def ConceptNode.display : ConceptNode → Option String
  | .mk _ d _ _ _ => d

def ConceptNode.definition : ConceptNode → Option String
  | .mk _ _ d _ _ => d

def ConceptNode.system : ConceptNode → Option String
  | .mk _ _ _ s _ => s

def ConceptNode.children : ConceptNode → List ConceptNode
  | .mk _ _ _ _ ch => ch

/- Dict equality on concept dicts (used by `in` / `not in`). -/
mutual

def conceptBeq : ConceptNode → ConceptNode → Bool
  | .mk c1 d1 f1 s1 ch1, .mk c2 d2 f2 s2 ch2 =>
    c1 == c2 && d1 == d2 && f1 == f2 && s1 == s2 && conceptListBeq ch1 ch2

def conceptListBeq : List ConceptNode → List ConceptNode → Bool
  | [], [] => true
  | x :: xs, y :: ys => conceptBeq x y && conceptListBeq xs ys
  | _, _ => false

end

instance : BEq ConceptNode := ⟨conceptBeq⟩

/-- An expansion `contains` dict: `abstract` (default false), `code`,
`system`, `display` and nested `contains` children. -/
inductive ContainsNode where
  | mk (abstract : Bool) (code : Option String) (system : Option String)
       (display : Option String) (contains : List ContainsNode)

def ContainsNode.abstract : ContainsNode → Bool
  | .mk a _ _ _ _ => a

def ContainsNode.code : ContainsNode → Option String
  | .mk _ c _ _ _ => c

def ContainsNode.system : ContainsNode → Option String
  | .mk _ _ s _ _ => s

def ContainsNode.display : ContainsNode → Option String
  | .mk _ _ _ d _ => d

def ContainsNode.contains : ContainsNode → List ContainsNode
  | .mk _ _ _ _ ch => ch

/- Dict equality on contains dicts. -/
mutual

def containsBeq : ContainsNode → ContainsNode → Bool
  | .mk a1 c1 s1 d1 ch1, .mk a2 c2 s2 d2 ch2 =>
    a1 == a2 && c1 == c2 && s1 == s2 && d1 == d2 && containsListBeq ch1 ch2

def containsListBeq : List ContainsNode → List ContainsNode → Bool
  | [], [] => true
  | x :: xs, y :: ys => containsBeq x y && containsListBeq xs ys
  | _, _ => false

end

instance : BEq ContainsNode := ⟨containsBeq⟩

/-- A `compose.include` entry. `concept` and `valueSet` are `[]` when the
key is absent (both are truthiness-tested before use); `filter` and
`supplements` keep their absent/present distinction. -/
structure IncludeEntry where
  system : Option String
  version : Option String
  filter : Option (List FilterRule)
  concept : List ConceptNode
  valueSet : List String
  supplements : Option String
deriving BEq

/-- An `expansion.parameter` entry. -/
structure ParamR where
  name : Option String
  valueUri : Option String
deriving DecidableEq, Repr

/-- A ValueSet `expansion` dict. -/
structure ExpansionR where
  total : Option Int
  parameter : List ParamR
  contains : List ContainsNode
deriving BEq

/-- A ValueSet `compose` dict: its `include` list (absent key is `[]`). -/
structure ComposeR where
  «include» : List IncludeEntry
deriving BEq

/-- A ValueSet resource. Compiled resources carry a string `name` and
`url` (the definition compiler's pydantic model rejects nulls there); an
absent or empty `compose`/`expansion` dict is `none`. -/
structure VSResource where
  id : Option String
  name : String
  url : String
  description : Option String
  compose : Option ComposeR
  expansion : Option ExpansionR
deriving BEq

/-- A CodeSystem resource, restricted to the fields the resolver reads. -/
structure CSRes where
  id : Option String
  url : Option String
  version : Option String
  concept : List ConceptNode
  supplements : Option String
deriving BEq

/-- One loaded package: its id and its resource dicts in insertion order
(`discovery.PackageResources`). -/
structure PackageRes where
  id : String
  codesystems : List CSRes
  valuesets : List VSResource

/-- `AvailableResources._packages.values()` in insertion order. -/
def AvailableRes := List PackageRes

/-- `AvailableResources.filter_codesystems` (the `value_set` parameter is
never supplied by the resolver and is not modeled). -/
def filterCodesystems (res : AvailableRes) (packageId resourceId url : Option String) :
    List CSRes :=
  (res.map (fun pkg =>
    if packageId.isSome && packageId != some pkg.id then []
    else
      pkg.codesystems.filter (fun cs =>
        (resourceId.isNone || resourceId == cs.id)
        && (url.isNone || url == cs.url)))).flatten

/-- `AvailableResources.filter_valuesets`. -/
def filterValuesets (res : AvailableRes) (packageId resourceId url : Option String) :
    List VSResource :=
  (res.map (fun pkg =>
    if packageId.isSome && packageId != some pkg.id then []
    else
      pkg.valuesets.filter (fun vs =>
        (resourceId.isNone || resourceId == vs.id)
        && (url.isNone || url == some vs.url)))).flatten

/-- The package context of a `RelationshipMatcher`. -/
structure MatcherEnv where
  resources : AvailableRes
  packageId : String
  targetPackages : List String
  referencePackages : List String

/-- `RelationshipMatcher._find_codesystem`: own package first, then the
other target packages in listed order, then the reference packages; the
first generator element wins, `none` when every loop is exhausted. -/
def findCodesystem (env : MatcherEnv) (url : String) : Option CSRes :=
  match (filterCodesystems env.resources (some env.packageId) none (some url)).head? with
  | some codesystem => some codesystem
  | none =>
    match (env.targetPackages.filter (fun id => id != env.packageId)).findSome?
        (fun id => (filterCodesystems env.resources (some id) none (some url)).head?) with
    | some codesystem => some codesystem
    | none =>
      env.referencePackages.findSome?
        (fun id => (filterCodesystems env.resources (some id) none (some url)).head?)

/-- `RelationshipMatcher._find_valueset`, same search policy. -/
def findValueset (env : MatcherEnv) (url : String) : Option VSResource :=
  match (filterValuesets env.resources (some env.packageId) none (some url)).head? with
  | some valueset => some valueset
  | none =>
    match (env.targetPackages.filter (fun id => id != env.packageId)).findSome?
        (fun id => (filterValuesets env.resources (some id) none (some url)).head?) with
    | some valueset => some valueset
    | none =>
      env.referencePackages.findSome?
        (fun id => (filterValuesets env.resources (some id) none (some url)).head?)

/-- The search order the spec describes: own package, then the other
target packages, then the reference packages. -/
def lookupOrder (env : MatcherEnv) : List String :=
  env.packageId :: (env.targetPackages.filter (fun id => id != env.packageId))
    ++ env.referencePackages

/-- All codesystem candidates over an explicit package order (the merged
view a multi-package search would see). -/
def codesystemCandidates (env : MatcherEnv) (url : String) (ids : List String) :
    List CSRes :=
  (ids.map (fun id => filterCodesystems env.resources (some id) none (some url))).flatten

/-- All valueset candidates over an explicit package order. -/
def valuesetCandidates (env : MatcherEnv) (url : String) (ids : List String) :
    List VSResource :=
  (ids.map (fun id => filterValuesets env.resources (some id) none (some url))).flatten

/-! ## ValueSetRelationshipMatcher (`fhirguard_cli/metadata/relationships.py`) -/

/-- Resolver termination conditions: `typer.Exit(0)` (deliberate empty
result), `typer.Exit(1)` (fatal), out of modeling fuel, and Python
`ValueError`. -/
inductive MErr where
  | exit0
  | exit1
  | fuelOut
  | valueError (msg : String)
deriving DecidableEq, Repr

/-- Matcher computations that may terminate the run. -/
abbrev MX (α : Type) := Except MErr α

/-- `ValueSetRelationshipMatcher.Relationship`. -/
structure VSRelationship where
  resource : VSResource
  codesystems : List CSRes
  concepts : List ConceptNode
  includes : List IncludeEntry
  contains : List ContainsNode

/-- The intermediate accumulator of `_match_compose` / `_match_include`:
the `(_includes, _codesystems, _concepts, _contains)` tuple. -/
structure IncludeAcc where
  includes : List IncludeEntry
  codesystems : List CSRes
  concepts : List ConceptNode
  contains : List ContainsNode

/-- The empty accumulator. -/
def IncludeAcc.empty : IncludeAcc :=
  { includes := [], codesystems := [], concepts := [], contains := [] }

/-- Pointwise list concatenation of accumulators. -/
def IncludeAcc.append (a b : IncludeAcc) : IncludeAcc :=
  { includes := a.includes ++ b.includes
    codesystems := a.codesystems ++ b.codesystems
    concepts := a.concepts ++ b.concepts
    contains := a.contains ++ b.contains }

/-- The fixed allow-list of external reference-only code systems
(`SUPPORTED_CODESYSTEMS`). -/
def SUPPORTED_CODESYSTEMS : List String :=
  [ "http://snomed.info/sct",
    "http://loinc.org",
    "https://dmd.nhs.uk",
    "urn:iso:std:iso:3166",
    "urn:iso:std:iso:3166:-2",
    "urn:ietf:bcp:47",
    "http://unitsofmeasure.org",
    "urn:ietf:rfc:3986",
    "urn:ietf:bcp:13",
    "urn:iso:std:iso:4217" ]

/-- `{**c, "system": system}`: inject the include's system URI into a
concept dict (children kept). -/
def ConceptNode.setSystem : ConceptNode → String → ConceptNode
  | .mk code display defn _ children, system => .mk code display defn (some system) children

/- `ValueSetRelationshipMatcher._filter_concepts_to_valueset`: keep
concepts whose code matches the include's concept reference, and all their
descendants once an ancestor matched (the `_children` flag); matched
concepts are emitted childless. -/
mutual

def filterConceptsToValueset (valuesetConcept : ConceptNode) :
    List ConceptNode → Bool → List ConceptNode
  | [], _ => []
  | concept :: rest, childFlag =>
    filterConceptOne valuesetConcept concept childFlag
      ++ filterConceptsToValueset valuesetConcept rest childFlag

def filterConceptOne (valuesetConcept : ConceptNode) :
    ConceptNode → Bool → List ConceptNode
  | .mk code display defn system children, childFlag =>
    if code == valuesetConcept.code || childFlag then
      ConceptNode.mk code display defn system []
        :: filterConceptsToValueset valuesetConcept children true
    else []

end

/-- `ValueSetRelationshipMatcher._get_codesystem_related_resources`:
allow-listed systems are recorded as opaque includes; otherwise the
CodeSystem is resolved by URL and its concepts (filtered to the include's
explicit subset when one is given) are collected. Version-mismatch and
unsupported-`supplements` conditions only log warnings. -/
def getCodesystemRelatedResources (env : MatcherEnv) (inc : IncludeEntry) :
    List IncludeEntry × List CSRes × List ConceptNode :=
  let system := inc.system.getD ""
  if SUPPORTED_CODESYSTEMS.contains system then
    ([inc], [], [])
  else
    match findCodesystem env system with
    | some codesystem =>
      let concepts :=
        if !inc.concept.isEmpty && !codesystem.concept.isEmpty then
          (inc.concept.map (fun valuesetConcept =>
            (filterConceptsToValueset valuesetConcept codesystem.concept false).map
              (fun c => c.setSystem system))).flatten
        else if !codesystem.concept.isEmpty then
          codesystem.concept.map (fun c => c.setSystem system)
        else []
      ([], [codesystem], concepts)
    | none => ([], [], [])

/- `ValueSetRelationshipMatcher._flatten_contains`: depth-first flatten,
entries kept as-is (children intact) but abstract entries contribute only
their descendants. -/
mutual

def flattenContains : List ContainsNode → List ContainsNode
  | [] => []
  | contain :: rest => flattenContainsOne contain ++ flattenContains rest

def flattenContainsOne : ContainsNode → List ContainsNode
  | .mk abstract code system display children =>
    (if abstract then [] else [ContainsNode.mk abstract code system display children])
      ++ flattenContains children

end

/-- The guard `(total := expansion.get("total")) and total == 0` of
`_match_expansion`: the conjunction first tests the walrus value for
truthiness, so it requires `total` to be simultaneously nonzero (truthy)
and zero. -/
def expansionExitCond (expansion : ExpansionR) : Bool :=
  (match expansion.total with
   | none => false
   | some t => t != 0)
  && (expansion.total == some 0)

/-- `ValueSetRelationshipMatcher._match_expansion`: the (dead) empty-total
exit, resolution of non-SNOMED `version` parameter URIs, and the flattened
`contains` entries. -/
def matchExpansion (env : MatcherEnv) (expansion : ExpansionR) :
    MX (List CSRes × List ContainsNode) := do
  if expansionExitCond expansion then
    throw .exit0
  else
    let codesystems ← expansion.parameter.foldlM
      (fun acc param =>
        if param.name == some "version" then
          match param.valueUri with
          | none => pure acc
          | some versionUri =>
            if versionUri == "" then pure acc
            else if strContains versionUri "snomed.info" then pure acc
            else
              match versionUri.splitOn "|" with
              | [uri, _] =>
                match findCodesystem env uri with
                | some codesystem => pure (acc ++ [codesystem])
                | none => pure acc
              | _ => throw (.valueError "versionUri.split unpacking")
        else pure acc)
      ([] : List CSRes)
    pure (codesystems, flattenContains expansion.contains)

/-- First-occurrence deduplication by `value not in accumulator`
(`_deduplicate_relationship` and the `_convert_valueset` loops). -/
def pyDedup {α : Type} [BEq α] (xs : List α) : List α :=
  xs.foldl (fun acc x => if acc.contains x then acc else acc ++ [x]) []

/-- `ValueSetRelationshipMatcher._deduplicate_relationship`. -/
def dedupRelationship (relationship : VSRelationship) : VSRelationship :=
  { resource := relationship.resource
    codesystems := pyDedup relationship.codesystems
    concepts := pyDedup relationship.concepts
    includes := pyDedup relationship.includes
    contains := pyDedup relationship.contains }

/- `ValueSetRelationshipMatcher.match`, `_match_compose`, `_match_include`
and the nested-valueset recursion, mutually recursive on an explicit fuel
(the Python source recurses without a bound). -/
mutual

/-- `ValueSetRelationshipMatcher.match`: process `compose` when present,
then `expansion` when present, exit fatally when both are absent, then
deduplicate the relationship. -/
def matchVS (env : MatcherEnv) : Nat → VSResource → MX VSRelationship
  | 0, _ => throw .fuelOut
  | fuel + 1, resource => do
    let composeAcc ←
      match resource.compose with
      | some compose =>
        if compose.«include».isEmpty then pure IncludeAcc.empty
        else matchInclude env fuel compose.«include»
      | none => pure IncludeAcc.empty
    let expansionRes ←
      match resource.expansion with
      | some expansion => matchExpansion env expansion
      | none => pure ([], [])
    if resource.compose.isNone && resource.expansion.isNone then
      throw .exit1
    else
      pure (dedupRelationship
        { resource := resource
          codesystems := composeAcc.codesystems ++ expansionRes.1
          concepts := composeAcc.concepts
          includes := composeAcc.includes
          contains := composeAcc.contains ++ expansionRes.2 })
termination_by structural fuel _ => fuel

/-- `_match_include`: per include entry, process a declared `system`, add
the raw `concept` references, then resolve nested `valueSet` URLs. -/
def matchInclude (env : MatcherEnv) : Nat → List IncludeEntry → MX IncludeAcc
  | 0, _ => throw .fuelOut
  | _ + 1, [] => pure IncludeAcc.empty
  | fuel + 1, inc :: rest => do
    let fromSystem :=
      if optStrTruthy inc.system then getCodesystemRelatedResources env inc
      else ([], [], [])
    let nestedAcc ← matchNestedValuesets env fuel inc.valueSet
    let restAcc ← matchInclude env fuel rest
    pure (IncludeAcc.append
      { includes := fromSystem.1
        codesystems := fromSystem.2.1
        concepts := fromSystem.2.2 ++ inc.concept
        contains := [] }
      (IncludeAcc.append nestedAcc restAcc))
termination_by structural fuel _ => fuel

/-- The `include.get("valueSet")` loop of `_match_include`: every matching
valueset of the matcher's own package, per URL in order, resolved by a
full recursive `match`. -/
def matchNestedValuesets (env : MatcherEnv) : Nat → List String → MX IncludeAcc
  | 0, _ => throw .fuelOut
  | _ + 1, [] => pure IncludeAcc.empty
  | fuel + 1, url :: rest => do
    let acc1 ← matchVSList env fuel
      (filterValuesets env.resources (some env.packageId) none (some url))
    let acc2 ← matchNestedValuesets env fuel rest
    pure (acc1.append acc2)
termination_by structural fuel _ => fuel

/-- Resolve a list of nested valuesets in order, merging their
relationships' parts. -/
def matchVSList (env : MatcherEnv) : Nat → List VSResource → MX IncludeAcc
  | 0, _ => throw .fuelOut
  | _ + 1, [] => pure IncludeAcc.empty
  | fuel + 1, valueset :: rest => do
    let results ← matchVS env fuel valueset
    let restAcc ← matchVSList env fuel rest
    pure (IncludeAcc.append
      { includes := results.includes
        codesystems := results.codesystems
        concepts := results.concepts
        contains := results.contains }
      restAcc)
termination_by structural fuel _ => fuel

end

/-! ## DefinitionCompiler (`fhirguard_cli/commands/metadata.py`) -/

/-- Provenance tags of a compiled allowed value
(`Literal["concept", "include", "contains"]`). -/
inductive TypeTag where
  | concept
  | «include»
  | contains
deriving DecidableEq, Repr

/-- `ValueSetDefinitionAllowedValue`, fields in declaration order. -/
structure AVal where
  code : String
  type : List TypeTag
  system : Option String
  display : Option String
  description : Option String
  filter : Option (List FilterRule)
deriving DecidableEq, Repr

/-- A `related_codesystems` entry: `{"id": codesystem.id, "url": codesystem.url}`. -/
structure RelatedCS where
  id : Option String
  url : Option String
deriving DecidableEq, Repr

/-- `ValueSetDefinition`, fields in declaration order. -/
structure VSDef where
  name : String
  resource_id : String
  resource_url : String
  compose : Option ComposeR
  description : Option String
  related_codesystems : List RelatedCS
  allowed_values : List AVal

/-- The deduplication key `f"{value.code}::{value.system}"` (a null system
prints as `None`). -/
def keyOf (value : AVal) : String :=
  value.code ++ "::" ++ optStrRepr value.system

/-- Dict lookup in an insertion-ordered mapping. -/
def dictFind? {β : Type} (m : List (String × β)) (k : String) : Option β :=
  (m.find? (fun p => p.1 == k)).map (fun p => p.2)

/-- Dict assignment: replace in place when the key exists, append
otherwise. -/
def dictAssign {β : Type} : List (String × β) → String → β → List (String × β)
  | [], k, v => [(k, v)]
  | (k', v') :: rest, k, v =>
    if k' == k then (k, v) :: rest else (k', v') :: dictAssign rest k v

/-- `list({*existing_value.type, *value.type})`: the union of the two tag
sets. Python iterates the set in an order that is fixed for fixed inputs
within one interpreter run; it is modeled as first-occurrence order. -/
def typeUnion (a b : List TypeTag) : List TypeTag :=
  pyDedup (a ++ b)

/-- The merge guard of `_deduplicate_valueset`:
`all(value_fields.get(k) == existing_fields.get(k) for k in existing_fields)`.
`value_fields` holds the later value's non-null fields except `type`
(`code` is always a string, hence always held); `existing_fields` holds the
existing value's non-null fields restricted to keys `value_fields` also
holds. The guard therefore requires agreement exactly on the fields both
entries define. -/
def fieldsAgree (existing value : AVal) : Bool :=
  (value.code == existing.code)
  && (existing.system.isNone || value.system.isNone || value.system == existing.system)
  && (existing.display.isNone || value.display.isNone || value.display == existing.display)
  && (existing.description.isNone || value.description.isNone
      || value.description == existing.description)
  && (existing.filter.isNone || value.filter.isNone || value.filter == existing.filter)

/-- The merged entry on agreement: `fields = {**existing_fields,
**value_fields}`. Since `existing_fields` only keeps keys `value_fields`
also holds, `fields` is exactly `value_fields`: every optional field comes
from the later value (and is null when the later value left it null), and
`type` is the union of tags. -/
def mergedValue (existing value : AVal) : AVal :=
  { code := value.code
    type := typeUnion existing.type value.type
    system := value.system
    display := value.display
    description := value.description
    filter := value.filter }

/-- The special include-merge guard: both entries are pure `include`
entries with the same system and the later one carries a filter list. -/
def includeFilterCase (existing value : AVal) : Bool :=
  (value.type == [TypeTag.«include»])
  && (existing.type == [TypeTag.«include»])
  && (value.system == existing.system)
  && value.filter.isSome

/-- The include-merge result: a falsy existing filter is first replaced by
`[]`, then the later value's filter list is appended in place. -/
def filterMerged (existing value : AVal) : AVal :=
  let base :=
    match existing.filter with
    | none => []
    | some [] => []
    | some l => l
  { existing with filter := some (base ++ value.filter.getD []) }

/-- The loop of `Definition._deduplicate_valueset` over an
insertion-ordered dict. `supply` models `uuid4().hex`: the `n`-th fresh
key drawn for a conflicting duplicate. -/
def dedupGo (supply : Nat → String) :
    List AVal → Nat → List (String × AVal) → List (String × AVal)
  | [], _, m => m
  | value :: rest, n, m =>
    let key := keyOf value
    match dictFind? m key with
    | none => dedupGo supply rest n (dictAssign m key value)
    | some existing =>
      if fieldsAgree existing value then
        dedupGo supply rest n (dictAssign m key (mergedValue existing value))
      else if includeFilterCase existing value then
        dedupGo supply rest n (dictAssign m key (filterMerged existing value))
      else
        -- `log.warn(...)` then `allowed_values[uuid4().hex] = value`
        dedupGo supply rest (n + 1) (dictAssign m (supply n) value)

/-- `Definition._deduplicate_valueset`: rebuild `allowed_values` as the
dict's values in insertion order. -/
def dedupValueset (supply : Nat → String) (definition : VSDef) : VSDef :=
  { definition with allowed_values :=
      (dedupGo supply definition.allowed_values 0 []).map (fun p => p.2) }

/-- `relationship.resource.id or relationship.resource.name`. -/
def resourceIdOrName (id : Option String) (name : String) : String :=
  match id with
  | some i => if i != "" then i else name
  | none => name

/-- The allowed value built from a concept dict (`type=["concept"]`);
`concept["code"]` raises `KeyError` when absent. -/
def conceptAllowedValue (concept : ConceptNode) : Except String AVal :=
  match concept.code with
  | none => .error "KeyError: concept has no code"
  | some code =>
    .ok { type := [TypeTag.concept]
          code := code
          display := concept.display
          description := concept.definition
          filter := none
          system := concept.system }

/-- The allowed value built from an include entry (`type=["include"]`,
`code = include["system"]`, raising `KeyError` when absent). -/
def includeAllowedValue (inc : IncludeEntry) : Except String AVal :=
  match inc.system with
  | none => .error "KeyError: include has no system"
  | some system =>
    .ok { type := [TypeTag.«include»]
          code := system
          system := some system
          display := some system
          description := inc.version
          filter := inc.filter }

/-- The allowed value built from a contains entry (`type=["contains"]`,
`contains["code"]` raising `KeyError` when absent). -/
def containsAllowedValue (contain : ContainsNode) : Except String AVal :=
  match contain.code with
  | none => .error "KeyError: contains has no code"
  | some code =>
    .ok { type := [TypeTag.contains]
          code := code
          system := contain.system
          description := none
          filter := none
          display := contain.display }

/-- The definition `Definition._convert_valueset` assembles before its
final `_deduplicate_valueset` call: base fields from the resource, the
concept/include/contains allowed values appended in order (each loop skips
values already present by dict equality), and the related codesystems. -/
def buildValuesetDefinition (relationship : VSRelationship) : Except String VSDef := do
  let conceptValues ← relationship.concepts.mapM conceptAllowedValue
  let includeValues ← relationship.includes.mapM includeAllowedValue
  let containsValues ← relationship.contains.mapM containsAllowedValue
  pure
    { name := relationship.resource.name
      resource_id := resourceIdOrName relationship.resource.id relationship.resource.name
      resource_url := relationship.resource.url
      compose := relationship.resource.compose
      description := relationship.resource.description
      related_codesystems :=
        relationship.codesystems.map (fun cs => { id := cs.id, url := cs.url })
      allowed_values := pyDedup (conceptValues ++ includeValues ++ containsValues) }

/-- `Definition._convert_valueset`: build, then deduplicate. The `uuid4`
supply is the compiler's only non-input-determined datum. -/
def convertValueset (supply : Nat → String) (relationship : VSRelationship) :
    Except String VSDef :=
  (buildValuesetDefinition relationship).map (dedupValueset supply)

/-! ### Content hash (`ValueSetDefinition.hash`)

`hash` is the first 16 hex characters of `sha256(model_dump_json())`. The
digest is modeled by a fixed deterministic function of a canonical
serialization of the definition; every claim about the hash compares
hashes of definitions for equality, which depends only on the digest being
a function of the serialized record. -/

/-- Serialize a nullable string. -/
def serOptStr : Option String → String
  | none => "null"
  | some s => "\"" ++ s ++ "\""

/-- Serialize a list of already-serialized items. -/
def serList (xs : List String) : String :=
  "[" ++ String.intercalate "," xs ++ "]"

/-- Serialize a filter-rule dict. -/
def serFilterRule (rule : FilterRule) : String :=
  serList (rule.entries.map (fun p => "(" ++ p.1 ++ ":" ++ p.2 ++ ")"))

/-- Serialize a provenance tag. -/
def serTypeTag : TypeTag → String
  | .concept => "\"concept\""
  | .«include» => "\"include\""
  | .contains => "\"contains\""

/- Serialize a concept dict, children included. -/
mutual

def serConcept : ConceptNode → String
  | .mk code display defn system children =>
    "(code:" ++ serOptStr code ++ ",display:" ++ serOptStr display
      ++ ",definition:" ++ serOptStr defn ++ ",system:" ++ serOptStr system
      ++ ",concept:[" ++ serConceptList children ++ "])"

def serConceptList : List ConceptNode → String
  | [] => ""
  | c :: rest => serConcept c ++ "," ++ serConceptList rest

end

/-- Serialize a `compose.include` entry. -/
def serIncludeEntry (inc : IncludeEntry) : String :=
  "(system:" ++ serOptStr inc.system ++ ",version:" ++ serOptStr inc.version
    ++ ",filter:" ++ (match inc.filter with
      | none => "null"
      | some rules => serList (rules.map serFilterRule))
    ++ ",concept:[" ++ serConceptList inc.concept ++ "]"
    ++ ",valueSet:" ++ serList (inc.valueSet.map (fun u => "\"" ++ u ++ "\""))
    ++ ",supplements:" ++ serOptStr inc.supplements ++ ")"

/-- Serialize a `compose` dict. -/
def serCompose : Option ComposeR → String
  | none => "null"
  | some compose => "(include:" ++ serList (compose.«include».map serIncludeEntry) ++ ")"

/-- Serialize an allowed value, fields in model order. -/
def serAVal (v : AVal) : String :=
  "(code:\"" ++ v.code ++ "\",type:" ++ serList (v.type.map serTypeTag)
    ++ ",system:" ++ serOptStr v.system ++ ",display:" ++ serOptStr v.display
    ++ ",description:" ++ serOptStr v.description
    ++ ",filter:" ++ (match v.filter with
      | none => "null"
      | some rules => serList (rules.map serFilterRule)) ++ ")"

/-- Serialize a related-codesystem record. -/
def serRelatedCS (cs : RelatedCS) : String :=
  "(id:" ++ serOptStr cs.id ++ ",url:" ++ serOptStr cs.url ++ ")"

/-- Canonical serialization of a `ValueSetDefinition`
(`model_dump_json()`), fields in model order. -/
def serVSDef (d : VSDef) : String :=
  "(name:\"" ++ d.name ++ "\",resource_id:\"" ++ d.resource_id
    ++ "\",resource_url:\"" ++ d.resource_url
    ++ "\",compose:" ++ serCompose d.compose
    ++ ",description:" ++ serOptStr d.description
    ++ ",related_codesystems:" ++ serList (d.related_codesystems.map serRelatedCS)
    ++ ",allowed_values:" ++ serList (d.allowed_values.map serAVal) ++ ")"

/-- The fixed digest standing in for `hashlib.sha256`. -/
def simpleDigest (s : String) : Nat :=
  s.foldl (fun h c => (h * 31 + c.toNat) % 2 ^ 64) 5381

/-- `ValueSetDefinition.hash`: the first 16 hex characters of the digest
of the serialized definition. -/
def vsdefHash (d : VSDef) : String :=
  ((Nat.toDigits 16 (simpleDigest (serVSDef d))).asString).take 16

/-- Mask a dict key for comparing two dedup runs: keys derived from the
input values (`"code::system"` keys) are kept, synthetic `uuid4` keys are
anonymized. -/
def maskKey (good : List String) (k : String) : Option String :=
  if k ∈ good then some k else none

/-- A dedup dict with its synthetic keys anonymized. -/
def maskedMap (good : List String) (m : List (String × AVal)) :
    List (Option String × AVal) :=
  m.map (fun p => (maskKey good p.1, p.2))

/-! ## Theorems -/

/-- With a nonempty code, no codesystem argument and a truthy valueset
name, `CodeValidator.validate` reduces to `_validate_valueset`. -/
theorem codeValidate_valueset_branch (md : Metadata) (path code vs : String)
    (hcode : code ≠ "") (hvs : vs ≠ "") :
    codeValidate md path code (some vs) none = codeValidateValueset md path code vs := by
  unfold codeValidate
  simp [hcode, hvs, optStrTruthy]

/-- C1: for every compiled valueset definition and every non-empty string
code, if the code occurs exactly once among the definition's allowed
values then `CodeValidator.validate` emits no error-level issue and
returns `True`; if it occurs in none of them, it emits exactly one
error-level issue whose diagnostics contain both the code and the valueset
name, and returns `False`. -/
theorem c1_code_validate_membership (md : Metadata) (path code vs : String)
    (definition : RtValueSet)
    (hmd : getValueset md vs = some definition)
    (hcode : code ≠ "") (hvs : vs ≠ "") :
    ((definition.allowed_values.countP (fun v => v.code == code) = 1 →
        codeValidate md path code (some vs) none = .ok ([], true)) ∧
     (definition.allowed_values.countP (fun v => v.code == code) = 0 →
        ∃ issue, codeValidate md path code (some vs) none = .ok ([issue], false) ∧
          issue.severity = .error ∧
          (∃ a b : String, issue.diagnostics = a ++ code ++ b) ∧
          (∃ a b : String, issue.diagnostics = a ++ vs ++ b))) := by
  rw [List.countP_eq_length_filter]
  constructor
  · intro h1
    obtain ⟨a, ha⟩ := List.length_eq_one.mp h1
    rw [codeValidate_valueset_branch md path code vs hcode hvs]
    unfold codeValidateValueset
    simp only [hmd, ha]
    simp
  · intro h0
    have hnil := List.length_eq_zero.mp h0
    rw [codeValidate_valueset_branch md path code vs hcode hvs]
    unfold codeValidateValueset
    simp only [hmd, hnil]
    refine ⟨Issue.mk .error "code-invalid"
        ("Code '" ++ code ++ "' not found in valueset '" ++ vs ++ "'")
        (some [path]), ?_, rfl,
      ⟨"Code '", "' not found in valueset '" ++ vs ++ "'", ?_⟩,
      ⟨"Code '" ++ code ++ "' not found in valueset '", "'", ?_⟩⟩
    · simp
    · simp [String.append_assoc]
    · simp [String.append_assoc]

/-- C1 witness: a concrete store where the code `"male"` occurs exactly
once and the code `"goose"` occurs in no allowed value. -/
theorem c1_code_validate_membership_witness :
    codeValidate [("AdministrativeGender", ⟨"u", [⟨"male", none, none⟩]⟩)]
        "gender" "male" (some "AdministrativeGender") none = .ok ([], true) ∧
    ∃ issue, codeValidate [("AdministrativeGender", ⟨"u", [⟨"male", none, none⟩]⟩)]
        "gender" "goose" (some "AdministrativeGender") none = .ok ([issue], false) ∧
      issue.severity = .error ∧
      (∃ a b : String, issue.diagnostics = a ++ "goose" ++ b) ∧
      (∃ a b : String, issue.diagnostics = a ++ "AdministrativeGender" ++ b) := by
  constructor
  · exact (c1_code_validate_membership
      [("AdministrativeGender", ⟨"u", [⟨"male", none, none⟩]⟩)]
      "gender" "male" "AdministrativeGender" ⟨"u", [⟨"male", none, none⟩]⟩
      rfl (by decide) (by decide)).1 (by decide)
  · exact (c1_code_validate_membership
      [("AdministrativeGender", ⟨"u", [⟨"male", none, none⟩]⟩)]
      "gender" "goose" "AdministrativeGender" ⟨"u", [⟨"male", none, none⟩]⟩
      rfl (by decide) (by decide)).2 (by decide)

/-- The defining equation of `recursiveQuery` on a non-empty label list. -/
theorem recursiveQuery_cons (l : String) (ls : List String) (r : Val) :
    recursiveQuery (l :: ls) r =
      (let child := childLookup r l
       if pyFalsy child then []
       else
         match child with
         | .vlist xs => (xs.map (fun item => recursiveQuery ls item)).flatten
         | _ => if ls.isEmpty then [child] else recursiveQuery ls child) := rfl

/-- Flattening singleton lists is the identity. -/
theorem flatten_map_singleton {α : Type} (xs : List α) :
    (xs.map (fun i => [i])).flatten = xs := by
  induction xs with
  | nil => rfl
  | cons a tl ih => simp [ih]

/-- Flattening commutes with mapping a list-valued function. -/
theorem flatten_map_flatten {α β : Type} (f : α → List β) (ll : List (List α)) :
    (ll.flatten.map f).flatten = (ll.map (fun l => ((l.map f).flatten))).flatten := by
  induction ll with
  | nil => rfl
  | cons hd tl ih =>
    simp only [List.flatten_cons, List.map_append, List.flatten_append, List.map_cons, ih]

/-- A query whose final segment resolves to a truthy list yields exactly
that list. -/
theorem recursiveQuery_last_list (p : Val) (l : String) (xs : List Val)
    (hlk : childLookup p l = .vlist xs) (hne : pyFalsy (.vlist xs) = false) :
    recursiveQuery [l] p = xs := by
  rw [recursiveQuery_cons]
  simp only [hlk, hne]
  simp [flatten_map_singleton, recursiveQuery]

/-- Resolving `labels ++ [l]` is resolving `labels`, then taking each
result's final step. -/
theorem recursiveQuery_append_last (l : String) :
    ∀ (labels : List String) (r : Val),
      recursiveQuery (labels ++ [l]) r
        = ((recursiveQuery labels r).map (fun p => recursiveQuery [l] p)).flatten := by
  intro labels
  induction labels with
  | nil =>
    intro r
    simp [recursiveQuery]
  | cons l' ls ih =>
    intro r
    rw [List.cons_append, recursiveQuery_cons l' (ls ++ [l]) r, recursiveQuery_cons l' ls r]
    simp only []
    by_cases hf : pyFalsy (childLookup r l') = true
    · simp [hf]
    · rw [if_neg hf, if_neg hf]
      cases hc : childLookup r l' with
      | vnull =>
        rw [hc] at hf
        simp [pyFalsy] at hf
      | vlist xs =>
        simp only []
        rw [flatten_map_flatten]
        simp only [List.map_map]
        congr 1
        apply List.map_congr_left
        intro a _
        exact ih a
      | vstr s =>
        show (if (ls ++ [l]).isEmpty then [Val.vstr s]
              else recursiveQuery (ls ++ [l]) (Val.vstr s))
          = ((if ls.isEmpty then [Val.vstr s] else recursiveQuery ls (Val.vstr s)).map
              (fun p => recursiveQuery [l] p)).flatten
        cases ls with
        | nil => simp [recursiveQuery]
        | cons h t =>
          rw [if_neg (by simp), if_neg (by simp)]
          exact ih _
      | vdict fs =>
        show (if (ls ++ [l]).isEmpty then [Val.vdict fs]
              else recursiveQuery (ls ++ [l]) (Val.vdict fs))
          = ((if ls.isEmpty then [Val.vdict fs] else recursiveQuery ls (Val.vdict fs)).map
              (fun p => recursiveQuery [l] p)).flatten
        cases ls with
        | nil => simp [recursiveQuery]
        | cons h t =>
          rw [if_neg (by simp), if_neg (by simp)]
          exact ih _

/-- C8: `query_resource` on an empty path returns the root record
unchanged, and on a path whose final segment traverses a list it returns
one entry per list element in the list's original order (the result is the
concatenation, over the parents the prefix resolves to, of each parent's
final-step list, and a truthy final-step list is returned as-is). -/
theorem c8_query_resource_roundtrip :
    (∀ r : Val, queryResource r "" = [r]) ∧
    (∀ (r : Val) (path : String) (labels : List String) (l : String),
      path ≠ "" → splitDot path = labels ++ [l] →
      queryResource r path
        = ((recursiveQuery labels r).map (fun p => recursiveQuery [l] p)).flatten) ∧
    (∀ (p : Val) (l : String) (xs : List Val),
      childLookup p l = .vlist xs → pyFalsy (.vlist xs) = false →
      recursiveQuery [l] p = xs) := by
  refine ⟨fun r => by simp [queryResource], ?_, recursiveQuery_last_list⟩
  intro r path labels l hpath hsplit
  rw [queryResource, if_neg hpath, hsplit, recursiveQuery_append_last]

/-- C8 witness: a two-coding record; the multi-valued path
`maritalStatus.coding` yields both codings in order, and the empty path
returns the root. -/
theorem c8_query_resource_roundtrip_witness :
    queryResource (Val.vdict [("maritalStatus", Val.vdict [("coding",
        Val.vlist [Val.vdict [("code", Val.vstr "A")], Val.vdict [("code", Val.vstr "D")]])])])
        "maritalStatus.coding"
      = [Val.vdict [("code", Val.vstr "A")], Val.vdict [("code", Val.vstr "D")]] ∧
    queryResource (Val.vstr "root") "" = [Val.vstr "root"] := by
  constructor
  · rw [c8_query_resource_roundtrip.2.1 _ "maritalStatus.coding" ["maritalStatus"] "coding"
      (by decide) (by decide)]
    rfl
  · exact c8_query_resource_roundtrip.1 _

/-- With a truthy valueset name and no codesystem, `CodingValidator.validate`
on a parsed coding reduces to `_validate_valueset`. -/
theorem codingValidate_valueset_branch (md : Metadata) (tbl : LangTable)
    (path : String) (coding : CodingR) (vs : String) (hvs : vs ≠ "") :
    codingValidate md tbl path (some coding) (some vs) none
      = codingValidateValueset md tbl path coding vs := by
  unfold codingValidate
  simp [hvs, optStrTruthy]

/-- C9: for every valueset definition that is not composed entirely of
BCP-47 entries, `CodingValidator.validate` returns `False` whenever it
returns at all (at most one code match, so no exception) — even on a
perfect match — since `True` is only ever returned from the
language-validation path. -/
theorem c9_coding_nonlanguage_always_false (md : Metadata) (tbl : LangTable)
    (path vs : String) (coding : CodingR) (definition : RtValueSet)
    (hmd : getValueset md vs = some definition)
    (hvs : vs ≠ "")
    (hnotlang : definition.allowed_values.all
        (fun v => v.system == some "urn:ietf:bcp:47") = false)
    (hnomulti : (definition.allowed_values.filter
        (fun v => some v.code == coding.code)).length ≤ 1) :
    ∃ issues, codingValidate md tbl path (some coding) (some vs) none
      = .ok (issues, false) := by
  rw [codingValidate_valueset_branch md tbl path coding vs hvs]
  unfold codingValidateValueset
  simp only [hmd, hnotlang]
  simp only [Bool.false_eq_true, if_false]
  by_cases hemp : (definition.allowed_values.filter
      (fun v => some v.code == coding.code)).isEmpty = true
  · simp only [hemp, if_true]
    rcases hdm : definition.allowed_values.filter (fun v => v.display == coding.display)
      with _ | ⟨a, _ | ⟨b, t⟩⟩
    · rw [hdm]; exact ⟨_, rfl⟩
    · rw [hdm]; exact ⟨_, rfl⟩
    · rw [hdm]; exact ⟨_, rfl⟩
  · rw [if_neg hemp]
    have hpos : (definition.allowed_values.filter
        (fun v => some v.code == coding.code)).length ≠ 0 := by
      intro h
      exact hemp (by rw [List.isEmpty_iff_length_eq_zero]; exact h)
    rw [if_neg (by omega)]
    exact ⟨_, rfl⟩

/-- C9 witness: a one-entry non-BCP-47 definition and a coding whose code,
system and display all match the allowed value exactly; no issue is
emitted and the result is still `False`. -/
theorem c9_coding_nonlanguage_always_false_witness :
    codingValidate [("marital-status", ⟨"sys", [⟨"M", some "sys", some "Married"⟩]⟩)]
        [] "maritalStatus" (some ⟨some "sys", some "M", some "Married"⟩)
        (some "marital-status") none = .ok ([], false) ∧
    (∃ issues, codingValidate
        [("marital-status", ⟨"sys", [⟨"M", some "sys", some "Married"⟩]⟩)]
        [] "maritalStatus" (some ⟨some "sys", some "M", some "Married"⟩)
        (some "marital-status") none = .ok (issues, false)) :=
  ⟨rfl, c9_coding_nonlanguage_always_false
    [("marital-status", ⟨"sys", [⟨"M", some "sys", some "Married"⟩]⟩)] []
    "maritalStatus" "marital-status" ⟨some "sys", some "M", some "Married"⟩
    ⟨"sys", [⟨"M", some "sys", some "Married"⟩]⟩
    rfl (by decide) (by decide) (by decide)⟩

/-- C10: for a valueset definition whose `allowed_values` list is empty,
`CodingValidator.validate` takes the all-BCP-47 branch (the universally
quantified system check holds vacuously) and delegates to language-code
validation: the result is exactly the system-check issues followed by the
language validation's issues and its boolean. -/
theorem c10_empty_valueset_language_delegation (md : Metadata) (tbl : LangTable)
    (path vs : String) (coding : CodingR) (definition : RtValueSet)
    (hmd : getValueset md vs = some definition)
    (hvs : vs ≠ "")
    (hempty : definition.allowed_values = []) :
    codingValidate md tbl path (some coding) (some vs) none =
      .ok (codingSystemIssues path coding definition
             ++ (validateLanguages tbl path coding definition.resource_url).1,
           (validateLanguages tbl path coding definition.resource_url).2) := by
  rw [codingValidate_valueset_branch md tbl path coding vs hvs]
  unfold codingValidateValueset
  simp only [hmd, hempty]
  rfl

/-- C10 witness: an empty-valueset definition with a language coding; the
delegation validates `en`/`English` against the language table and returns
`True` with no issue, instead of a code-not-found error. -/
theorem c10_empty_valueset_language_delegation_witness :
    codingValidate [("AllLanguages", ⟨"urlang", []⟩)] [⟨"en", "English"⟩]
        "communication" (some ⟨none, some "en", some "English"⟩)
        (some "AllLanguages") none = .ok ([], true) := by
  rw [c10_empty_valueset_language_delegation [("AllLanguages", ⟨"urlang", []⟩)]
    [⟨"en", "English"⟩] "communication" "AllLanguages"
    ⟨none, some "en", some "English"⟩ ⟨"urlang", []⟩ rfl (by decide) rfl]
  rfl

/-- C4: the empty-expansion guard
`(total := expansion.get("total")) and total == 0` can never hold — a zero
total is falsy, so the walrus conjunct already fails — and therefore a
declared total of exactly zero does NOT abort processing: the contains
entries of such an expansion are still flattened and returned. -/
theorem c4_zero_total_guard_dead :
    (∀ expansion : ExpansionR, expansionExitCond expansion = false) ∧
    matchExpansion ⟨[], "pkg", [], []⟩
        ⟨some 0, [], [ContainsNode.mk false (some "x") none none []]⟩
      = .ok ([], [ContainsNode.mk false (some "x") none none []]) := by
  constructor
  · intro e
    unfold expansionExitCond
    cases he : e.total with
    | none => rfl
    | some t =>
      by_cases ht : t = 0
      · subst ht; decide
      · have hne : (some t == some (0 : Int)) = false :=
          beq_eq_false_iff_ne.mpr (by simp [ht])
        rw [hne, Bool.and_false]
  · rfl

/-- C7: `ValidatorStrategy.code` tests `path not in self.issues` — the
flattened issue *list*, not the `_issues` dict — which never holds, so the
path's bucket is reset on every failing `code` call: after two failing
calls on `gender`, only the second call's issue survives, although the
first call had recorded its own issue at that path. -/
theorem c7_code_call_discards_previous_issues :
    strategyCode
        [("VS1", ⟨"u1", [⟨"ok", none, none⟩]⟩), ("VS2", ⟨"u2", [⟨"ok", none, none⟩]⟩)]
        ⟨[]⟩ (Val.vdict [("gender", Val.vstr "bad")]) "gender" (some "VS1") none false
      = .ok ⟨[("gender",
          [⟨.error, "code-invalid", "Code 'bad' not found in valueset 'VS1'",
            some ["gender"]⟩])]⟩ ∧
    (strategyCode
        [("VS1", ⟨"u1", [⟨"ok", none, none⟩]⟩), ("VS2", ⟨"u2", [⟨"ok", none, none⟩]⟩)]
        ⟨[]⟩ (Val.vdict [("gender", Val.vstr "bad")]) "gender" (some "VS1") none false).bind
      (fun st1 => strategyCode
        [("VS1", ⟨"u1", [⟨"ok", none, none⟩]⟩), ("VS2", ⟨"u2", [⟨"ok", none, none⟩]⟩)]
        st1 (Val.vdict [("gender", Val.vstr "bad")]) "gender" (some "VS2") none false)
      = .ok ⟨[("gender",
          [⟨.error, "code-invalid", "Code 'bad' not found in valueset 'VS2'",
            some ["gender"]⟩])]⟩ :=
  ⟨rfl, rfl⟩

/-- C6 counterexample: a ValueSet carrying BOTH `compose` and `expansion`
is accepted and BOTH are processed into the relationship (its compose
include and its expansion contains both appear), so "exactly one of
compose or expansion must be present / never both processed" fails. -/
theorem c6_both_compose_and_expansion_processed :
    (matchVS ⟨[], "pkg", [], []⟩ 3
        ⟨some "r1", "R", "url", none,
         some ⟨[⟨some "http://loinc.org", none, none, [], [], none⟩]⟩,
         some ⟨some 5, [], [ContainsNode.mk false (some "c") none none []]⟩⟩).map
      (fun rel => (rel.includes, rel.contains))
    = .ok ([⟨some "http://loinc.org", none, none, [], [], none⟩],
           [ContainsNode.mk false (some "c") none none []]) := rfl

/-- C6 (amended): at least one of `compose` or `expansion` must be
present: when both are absent, resolution of the resource aborts fatally
with `Exit(1)`; a resource carrying both has both processed. -/
theorem c6_missing_compose_and_expansion_fatal (env : MatcherEnv) (fuel : Nat)
    (resource : VSResource)
    (hc : resource.compose = none) (he : resource.expansion = none) :
    matchVS env (fuel + 1) resource = .error .exit1 := by
  unfold matchVS
  rw [hc, he]
  rfl

/-- C6 witness: a concrete resource with neither compose nor expansion
aborts with `Exit(1)`. -/
theorem c6_missing_compose_and_expansion_fatal_witness :
    matchVS ⟨[], "pkg", [], []⟩ 1 ⟨some "r", "R", "url", none, none, none⟩
      = .error .exit1 :=
  c6_missing_compose_and_expansion_fatal ⟨[], "pkg", [], []⟩ 0
    ⟨some "r", "R", "url", none, none, none⟩ rfl rfl

/-- The head of a concatenation of per-id result lists is the first hit
of an id-by-id search. -/
theorem head_flatten_findSome {α : Type} (f : String → List α) :
    ∀ ids : List String, ((ids.map f).flatten).head? = ids.findSome? (fun i => (f i).head?) := by
  intro ids
  induction ids with
  | nil => rfl
  | cons a rest ih =>
    simp only [List.map_cons, List.flatten_cons, List.findSome?_cons]
    cases hfa : f a with
    | nil => simpa using ih
    | cons x xs => rfl

/-- Unfolding `findSome?` over a cons cell. -/
theorem findSome?_cons_eq {α β : Type} (f : α → Option β) (a : α) (l : List α) :
    List.findSome? f (a :: l)
      = (match f a with | some b => some b | none => List.findSome? f l) := rfl

/-- Unfolding `findSome?` over an append. -/
theorem findSome?_append_eq {α β : Type} (f : α → Option β) (l₁ l₂ : List α) :
    List.findSome? f (l₁ ++ l₂)
      = (match List.findSome? f l₁ with
         | some b => some b
         | none => List.findSome? f l₂) := by
  induction l₁ with
  | nil => rfl
  | cons a rest ih =>
    rw [List.cons_append, findSome?_cons_eq, findSome?_cons_eq f a rest]
    cases f a with
    | some b => rfl
    | none => exact ih

/-- C5: `_find_codesystem` and `_find_valueset` return exactly the first
matching resource of the concatenated candidate lists over the search
order (own package, then the other target packages in listed order, then
the reference packages) — a single-match lookup, never a merge, and `none`
exactly when no package contains a match. -/
theorem c5_find_first_match_policy (env : MatcherEnv) (url : String) :
    findCodesystem env url = (codesystemCandidates env url (lookupOrder env)).head? ∧
    findValueset env url = (valuesetCandidates env url (lookupOrder env)).head? := by
  constructor
  · unfold findCodesystem codesystemCandidates lookupOrder
    rw [head_flatten_findSome]
    rw [findSome?_append_eq, findSome?_cons_eq]
    cases (filterCodesystems env.resources (some env.packageId) none (some url)).head? with
    | some codesystem => rfl
    | none =>
      simp only []
      cases (env.targetPackages.filter (fun id => id != env.packageId)).findSome?
          (fun id => (filterCodesystems env.resources (some id) none (some url)).head?) with
      | some codesystem => rfl
      | none => rfl
  · unfold findValueset valuesetCandidates lookupOrder
    rw [head_flatten_findSome]
    rw [findSome?_append_eq, findSome?_cons_eq]
    cases (filterValuesets env.resources (some env.packageId) none (some url)).head? with
    | some valueset => rfl
    | none =>
      simp only []
      cases (env.targetPackages.filter (fun id => id != env.packageId)).findSome?
          (fun id => (filterValuesets env.resources (some id) none (some url)).head?) with
      | some valueset => rfl
      | none => rfl

/-- First-occurrence deduplication preserves membership. -/
theorem pyDedup_foldl_mem {α : Type} [BEq α] [LawfulBEq α] (x : α) :
    ∀ (xs acc : List α),
      (x ∈ xs.foldl (fun acc y => if acc.contains y then acc else acc ++ [y]) acc)
        ↔ x ∈ acc ∨ x ∈ xs := by
  intro xs
  induction xs with
  | nil => intro acc; simp
  | cons y ys ih =>
    intro acc
    simp only [List.foldl_cons]
    by_cases hy : acc.contains y
    · rw [if_pos hy, ih]
      have hmem : y ∈ acc := by
        have := List.elem_iff.mp hy
        exact this
      constructor
      · rintro (h | h)
        · exact Or.inl h
        · exact Or.inr (List.mem_cons_of_mem y h)
      · rintro (h | h)
        · exact Or.inl h
        · rcases List.mem_cons.mp h with h | h
          · exact Or.inl (h ▸ hmem)
          · exact Or.inr h
    · rw [if_neg hy, ih]
      simp only [List.mem_append, List.mem_singleton, List.mem_cons]
      tauto

/-- Membership form of `pyDedup`. -/
theorem pyDedup_mem {α : Type} [BEq α] [LawfulBEq α] (xs : List α) (x : α) :
    x ∈ pyDedup xs ↔ x ∈ xs := by
  unfold pyDedup
  rw [pyDedup_foldl_mem]
  simp

/-- C2 counterexample: two entries under the same `(code, system)` key
whose commonly-defined fields agree (merge guard holds), where the first
defines `display := "D"` and the later leaves it undefined; the merged
entry drops `display` entirely — a field defined by the first occurrence
alone is NOT present in the merged entry. -/
theorem c2_counterexample_first_only_field_dropped :
    fieldsAgree ⟨"a", [TypeTag.concept], some "s", some "D", none, none⟩
        ⟨"a", [TypeTag.contains], some "s", none, none, none⟩ = true ∧
    keyOf ⟨"a", [TypeTag.concept], some "s", some "D", none, none⟩
      = keyOf ⟨"a", [TypeTag.contains], some "s", none, none, none⟩ ∧
    (dedupValueset (fun n => "uuid" ++ toString n)
        ⟨"N", "id", "url", none, none, [],
          [⟨"a", [TypeTag.concept], some "s", some "D", none, none⟩,
           ⟨"a", [TypeTag.contains], some "s", none, none, none⟩]⟩).allowed_values
      = [⟨"a", [TypeTag.concept, TypeTag.contains], some "s", none, none, none⟩] :=
  ⟨rfl, rfl, rfl⟩

/-- C2 (amended): when a later value shares the `(code, system)` key of an
existing entry and every field both entries define agrees, the merged
entry takes the union of the two entries' type tags and every field of the
LATER entry (so a field defined by the later entry, or by both, is
present); a field defined only by the first occurrence and left undefined
by the later one is dropped from the merged entry. -/
theorem c2_merge_union_and_later_fields (supply : Nat → String)
    (name rid url : String) (v1 v2 : AVal)
    (hcode : v1.code = v2.code) (hsys : v1.system = v2.system)
    (hdisp : ∀ d1 d2 : String, v1.display = some d1 → v2.display = some d2 → d1 = d2)
    (hdesc : ∀ d1 d2 : String, v1.description = some d1 → v2.description = some d2 → d1 = d2)
    (hfil : ∀ f1 f2 : List FilterRule, v1.filter = some f1 → v2.filter = some f2 → f1 = f2) :
    (dedupValueset supply ⟨name, rid, url, none, none, [], [v1, v2]⟩).allowed_values
        = [mergedValue v1 v2]
      ∧ (∀ t, t ∈ (mergedValue v1 v2).type ↔ t ∈ v1.type ∨ t ∈ v2.type)
      ∧ (mergedValue v1 v2).code = v2.code
      ∧ (mergedValue v1 v2).system = v2.system
      ∧ (mergedValue v1 v2).display = v2.display
      ∧ (mergedValue v1 v2).description = v2.description
      ∧ (mergedValue v1 v2).filter = v2.filter := by
  have hkey : keyOf v2 = keyOf v1 := by
    unfold keyOf
    rw [hcode, hsys]
  have hagree : fieldsAgree v1 v2 = true := by
    unfold fieldsAgree
    simp only [Bool.and_eq_true]
    refine ⟨⟨⟨⟨?_, ?_⟩, ?_⟩, ?_⟩, ?_⟩
    · exact beq_iff_eq.mpr hcode.symm
    · rw [hsys]
      cases v2.system <;> simp
    · cases h1 : v1.display with
      | none => rfl
      | some d1 =>
        cases h2 : v2.display with
        | none => rfl
        | some d2 => simp [hdisp d1 d2 h1 h2]
    · cases h1 : v1.description with
      | none => rfl
      | some d1 =>
        cases h2 : v2.description with
        | none => rfl
        | some d2 => simp [hdesc d1 d2 h1 h2]
    · cases h1 : v1.filter with
      | none => rfl
      | some f1 =>
        cases h2 : v2.filter with
        | none => rfl
        | some f2 => simp [hfil f1 f2 h1 h2]
  refine ⟨?_, ?_, rfl, rfl, rfl, rfl, rfl⟩
  · have hfind2 : dictFind? [(keyOf v1, v1)] (keyOf v2) = some v1 := by
      unfold dictFind?
      simp [hkey]
    have hassign2 : dictAssign [(keyOf v1, v1)] (keyOf v2) (mergedValue v1 v2)
        = [(keyOf v2, mergedValue v1 v2)] := by
      unfold dictAssign
      simp [hkey]
    have hfind1 : dictFind? ([] : List (String × AVal)) (keyOf v1) = none := rfl
    have hassign1 : dictAssign ([] : List (String × AVal)) (keyOf v1) v1
        = [(keyOf v1, v1)] := rfl
    unfold dedupValueset
    simp only [dedupGo, hfind1, hassign1, hfind2, hagree, if_true, hassign2]
    rfl
  · intro t
    unfold mergedValue typeUnion
    simp only []
    rw [pyDedup_mem]
    exact List.mem_append

/-- C2 amended witness: the later entry defines `display` the first entry
lacks; the merged entry keeps it, together with the tag union. -/
theorem c2_merge_union_and_later_fields_witness :
    (dedupValueset (fun n => "uuid" ++ toString n)
        ⟨"N", "id", "url", none, none, [],
          [⟨"a", [TypeTag.concept], some "s", none, none, none⟩,
           ⟨"a", [TypeTag.contains], some "s", some "D", none, none⟩]⟩).allowed_values
      = [mergedValue ⟨"a", [TypeTag.concept], some "s", none, none, none⟩
           ⟨"a", [TypeTag.contains], some "s", some "D", none, none⟩]
    ∧ (mergedValue ⟨"a", [TypeTag.concept], some "s", none, none, none⟩
        ⟨"a", [TypeTag.contains], some "s", some "D", none, none⟩).display = some "D" := by
  have h := c2_merge_union_and_later_fields (fun n => "uuid" ++ toString n)
    "N" "id" "url"
    ⟨"a", [TypeTag.concept], some "s", none, none, none⟩
    ⟨"a", [TypeTag.contains], some "s", some "D", none, none⟩
    rfl rfl
    (fun d1 d2 h1 _ => nomatch h1)
    (fun d1 d2 h1 _ => nomatch h1)
    (fun f1 f2 h1 _ => nomatch h1)
  exact ⟨h.1, h.2.2.2.2.1⟩

/-- A key whose mask is `some k` for a good `k` is `k` itself. -/
theorem maskKey_eq_some (good : List String) (k k' : String)
    (h : maskKey good k' = some k) : k' = k := by
  unfold maskKey at h
  by_cases hk' : k' ∈ good
  · rw [if_pos hk'] at h
    exact Option.some.inj h
  · rw [if_neg hk'] at h
    exact absurd h (by simp)

/-- The mask of a good key is itself. -/
theorem maskKey_of_good (good : List String) (k : String) (hk : k ∈ good) :
    maskKey good k = some k := by
  unfold maskKey
  rw [if_pos hk]

/-- Mask-equal dicts agree on lookups of good keys. -/
theorem maskedEq_find (good : List String) (k : String) (hk : k ∈ good) :
    ∀ (m₁ m₂ : List (String × AVal)),
      maskedMap good m₁ = maskedMap good m₂ →
      dictFind? m₁ k = dictFind? m₂ k := by
  intro m₁
  induction m₁ with
  | nil =>
    intro m₂ h
    cases m₂ with
    | nil => rfl
    | cons b t => exact absurd h (by simp [maskedMap])
  | cons a t ih =>
    intro m₂ h
    cases m₂ with
    | nil => exact absurd h (by simp [maskedMap])
    | cons b t₂ =>
      simp only [maskedMap, List.map_cons, List.cons.injEq, Prod.mk.injEq] at h
      obtain ⟨⟨hmk, hv⟩, htail⟩ := h
      unfold dictFind?
      simp only [List.find?]
      by_cases hak : a.1 = k
      · have hbk : b.1 = k := by
          apply maskKey_eq_some good k
          rw [← hmk, hak]
          exact maskKey_of_good good k hk
        rw [show (a.1 == k) = true from beq_iff_eq.mpr hak,
            show (b.1 == k) = true from beq_iff_eq.mpr hbk]
        simp [hv]
      · have hbk : b.1 ≠ k := by
          intro hbk
          apply hak
          apply maskKey_eq_some good k
          rw [hmk, hbk]
          exact maskKey_of_good good k hk
        rw [show (a.1 == k) = false from beq_eq_false_iff_ne.mpr hak,
            show (b.1 == k) = false from beq_eq_false_iff_ne.mpr hbk]
        have := ih t₂ (by simpa [maskedMap] using htail)
        unfold dictFind? at this
        exact this

/-- Mask equality is preserved by assigning the same value under the same
good key on both sides. -/
theorem maskedEq_assign_good (good : List String) (k : String) (hk : k ∈ good)
    (v : AVal) :
    ∀ (m₁ m₂ : List (String × AVal)),
      maskedMap good m₁ = maskedMap good m₂ →
      maskedMap good (dictAssign m₁ k v) = maskedMap good (dictAssign m₂ k v) := by
  intro m₁
  induction m₁ with
  | nil =>
    intro m₂ h
    cases m₂ with
    | nil => rfl
    | cons b t => exact absurd h (by simp [maskedMap])
  | cons a t ih =>
    intro m₂ h
    cases m₂ with
    | nil => exact absurd h (by simp [maskedMap])
    | cons b t₂ =>
      simp only [maskedMap, List.map_cons, List.cons.injEq, Prod.mk.injEq] at h
      obtain ⟨⟨hmk, hv⟩, htail⟩ := h
      unfold dictAssign
      by_cases hak : a.1 = k
      · have hbk : b.1 = k := by
          apply maskKey_eq_some good k
          rw [← hmk, hak]
          exact maskKey_of_good good k hk
        rw [if_pos (beq_iff_eq.mpr hak), if_pos (beq_iff_eq.mpr hbk)]
        simp only [maskedMap, List.map_cons]
        rw [htail]
      · have hbk : b.1 ≠ k := by
          intro hbk
          apply hak
          apply maskKey_eq_some good k
          rw [hmk, hbk]
          exact maskKey_of_good good k hk
        rw [if_neg (by simpa using hak), if_neg (by simpa using hbk)]
        have htail' := ih t₂ (by simpa [maskedMap] using htail)
        simp only [maskedMap, List.map_cons] at htail' ⊢
        rw [hmk, hv, htail']

/-- Assigning an absent key appends the binding. -/
theorem dictAssign_of_not_mem (k : String) (v : AVal) :
    ∀ m : List (String × AVal), (∀ p ∈ m, p.1 ≠ k) →
      dictAssign m k v = m ++ [(k, v)] := by
  intro m
  induction m with
  | nil => intro _; rfl
  | cons a t ih =>
    intro hmem
    unfold dictAssign
    rw [if_neg (by simpa using hmem a (List.mem_cons_self a t))]
    rw [List.cons_append]
    congr 1
    exact ih (fun p hp => hmem p (List.mem_cons_of_mem a hp))

/-- Every binding of an assigned dict is the new binding or an original
one. -/
theorem dictAssign_mem (k : String) (v : AVal) :
    ∀ (m : List (String × AVal)) (p : String × AVal),
      p ∈ dictAssign m k v → p = (k, v) ∨ p ∈ m := by
  intro m
  induction m with
  | nil =>
    intro p hp
    simp only [dictAssign] at hp
    exact Or.inl (by simpa using hp)
  | cons a t ih =>
    intro p hp
    unfold dictAssign at hp
    by_cases hak : a.1 == k
    · rw [if_pos hak] at hp
      rcases List.mem_cons.mp hp with h | h
      · exact Or.inl h
      · exact Or.inr (List.mem_cons_of_mem a h)
    · rw [if_neg (by simpa using hak)] at hp
      rcases List.mem_cons.mp hp with h | h
      · exact Or.inr (h ▸ List.mem_cons_self a t)
      · rcases ih p h with h' | h'
        · exact Or.inl h'
        · exact Or.inr (List.mem_cons_of_mem a h')

/-- Mask equality is preserved by appending the same value under fresh
(non-good, absent) keys, one per side. -/
theorem maskedEq_assign_fresh (good : List String) (k₁ k₂ : String)
    (hk₁ : k₁ ∉ good) (hk₂ : k₂ ∉ good) (v : AVal)
    (m₁ m₂ : List (String × AVal))
    (habs₁ : ∀ p ∈ m₁, p.1 ≠ k₁) (habs₂ : ∀ p ∈ m₂, p.1 ≠ k₂)
    (h : maskedMap good m₁ = maskedMap good m₂) :
    maskedMap good (dictAssign m₁ k₁ v) = maskedMap good (dictAssign m₂ k₂ v) := by
  rw [dictAssign_of_not_mem k₁ v m₁ habs₁, dictAssign_of_not_mem k₂ v m₂ habs₂]
  simp only [maskedMap, List.map_append, List.map_cons, List.map_nil]
  rw [show maskKey good k₁ = none from by unfold maskKey; rw [if_neg hk₁],
      show maskKey good k₂ = none from by unfold maskKey; rw [if_neg hk₂]]
  simp only [maskedMap] at h
  rw [h]

/-- The central determinism lemma: two dedup runs over the same values,
differing only in their fresh-key supplies, produce mask-equal dicts. -/
theorem dedupGo_maskedEq (good : List String) (s₁ s₂ : Nat → String) (L : Nat)
    (hf₁ : ∀ i, i < L → s₁ i ∉ good) (hf₂ : ∀ i, i < L → s₂ i ∉ good)
    (hi₁ : ∀ i, i < L → ∀ j, j < L → i ≠ j → s₁ i ≠ s₁ j)
    (hi₂ : ∀ i, i < L → ∀ j, j < L → i ≠ j → s₂ i ≠ s₂ j) :
    ∀ (values : List AVal) (n : Nat) (m₁ m₂ : List (String × AVal)),
      (∀ v ∈ values, keyOf v ∈ good) →
      n + values.length ≤ L →
      maskedMap good m₁ = maskedMap good m₂ →
      (∀ p ∈ m₁, p.1 ∈ good ∨ ∃ i, i < n ∧ p.1 = s₁ i) →
      (∀ p ∈ m₂, p.1 ∈ good ∨ ∃ i, i < n ∧ p.1 = s₂ i) →
      maskedMap good (dedupGo s₁ values n m₁) = maskedMap good (dedupGo s₂ values n m₂) := by
  intro values
  induction values with
  | nil =>
    intro n m₁ m₂ _ _ hmask _ _
    exact hmask
  | cons v rest ih =>
    intro n m₁ m₂ hvals hlen hmask hb₁ hb₂
    have hkgood : keyOf v ∈ good := hvals v (List.mem_cons_self v rest)
    have hrest : ∀ w ∈ rest, keyOf w ∈ good :=
      fun w hw => hvals w (List.mem_cons_of_mem v hw)
    have hfind := maskedEq_find good (keyOf v) hkgood m₁ m₂ hmask
    have hnL : n < L := by
      have := hlen
      simp only [List.length_cons] at this
      omega
    simp only [dedupGo]
    rw [← hfind]
    cases hcase : dictFind? m₁ (keyOf v) with
    | none =>
      apply ih (n := n)
      · exact hrest
      · simp only [List.length_cons] at hlen; omega
      · exact maskedEq_assign_good good (keyOf v) hkgood v m₁ m₂ hmask
      · intro p hp
        rcases dictAssign_mem (keyOf v) v m₁ p hp with h | h
        · exact Or.inl (by rw [h]; exact hkgood)
        · exact hb₁ p h
      · intro p hp
        rcases dictAssign_mem (keyOf v) v m₂ p hp with h | h
        · exact Or.inl (by rw [h]; exact hkgood)
        · exact hb₂ p h
    | some existing =>
      simp only []
      by_cases h1 : fieldsAgree existing v = true
      · rw [if_pos h1, if_pos h1]
        apply ih (n := n)
        · exact hrest
        · simp only [List.length_cons] at hlen; omega
        · exact maskedEq_assign_good good (keyOf v) hkgood _ m₁ m₂ hmask
        · intro p hp
          rcases dictAssign_mem (keyOf v) _ m₁ p hp with h | h
          · exact Or.inl (by rw [h]; exact hkgood)
          · exact hb₁ p h
        · intro p hp
          rcases dictAssign_mem (keyOf v) _ m₂ p hp with h | h
          · exact Or.inl (by rw [h]; exact hkgood)
          · exact hb₂ p h
      · rw [if_neg h1, if_neg h1]
        by_cases h2 : includeFilterCase existing v = true
        · rw [if_pos h2, if_pos h2]
          apply ih (n := n)
          · exact hrest
          · simp only [List.length_cons] at hlen; omega
          · exact maskedEq_assign_good good (keyOf v) hkgood _ m₁ m₂ hmask
          · intro p hp
            rcases dictAssign_mem (keyOf v) _ m₁ p hp with h | h
            · exact Or.inl (by rw [h]; exact hkgood)
            · exact hb₁ p h
          · intro p hp
            rcases dictAssign_mem (keyOf v) _ m₂ p hp with h | h
            · exact Or.inl (by rw [h]; exact hkgood)
            · exact hb₂ p h
        · rw [if_neg h2, if_neg h2]
          have habs₁ : ∀ p ∈ m₁, p.1 ≠ s₁ n := by
            intro p hp hps
            rcases hb₁ p hp with h | ⟨i, hin, hpi⟩
            · exact hf₁ n hnL (hps ▸ h)
            · exact hi₁ i (by omega) n hnL (by omega) (hpi ▸ hps)
          have habs₂ : ∀ p ∈ m₂, p.1 ≠ s₂ n := by
            intro p hp hps
            rcases hb₂ p hp with h | ⟨i, hin, hpi⟩
            · exact hf₂ n hnL (hps ▸ h)
            · exact hi₂ i (by omega) n hnL (by omega) (hpi ▸ hps)
          apply ih (n := n + 1)
          · exact hrest
          · simp only [List.length_cons] at hlen; omega
          · exact maskedEq_assign_fresh good (s₁ n) (s₂ n) (hf₁ n hnL) (hf₂ n hnL)
              v m₁ m₂ habs₁ habs₂ hmask
          · intro p hp
            rcases dictAssign_mem (s₁ n) v m₁ p hp with h | h
            · exact Or.inr ⟨n, by omega, by rw [h]⟩
            · rcases hb₁ p h with h' | ⟨i, hin, hpi⟩
              · exact Or.inl h'
              · exact Or.inr ⟨i, by omega, hpi⟩
          · intro p hp
            rcases dictAssign_mem (s₂ n) v m₂ p hp with h | h
            · exact Or.inr ⟨n, by omega, by rw [h]⟩
            · rcases hb₂ p h with h' | ⟨i, hin, hpi⟩
              · exact Or.inl h'
              · exact Or.inr ⟨i, by omega, hpi⟩

/-- Mask-equal dicts have equal value sequences. -/
theorem maskedEq_values (good : List String) (m₁ m₂ : List (String × AVal))
    (h : maskedMap good m₁ = maskedMap good m₂) :
    m₁.map (fun p => p.2) = m₂.map (fun p => p.2) := by
  have h2 := congrArg (List.map (fun q : Option String × AVal => q.2)) h
  simpa [maskedMap, List.map_map, Function.comp] using h2

/-- `_deduplicate_valueset` does not depend on the drawn `uuid4` keys, as
long as they are fresh (never colliding with a `code::system` key of the
input) and pairwise distinct. -/
theorem dedupValueset_supply_independent (d : VSDef) (s₁ s₂ : Nat → String)
    (hf₁ : ∀ i, i < d.allowed_values.length → s₁ i ∉ d.allowed_values.map keyOf)
    (hf₂ : ∀ i, i < d.allowed_values.length → s₂ i ∉ d.allowed_values.map keyOf)
    (hi₁ : ∀ i, i < d.allowed_values.length → ∀ j, j < d.allowed_values.length →
      i ≠ j → s₁ i ≠ s₁ j)
    (hi₂ : ∀ i, i < d.allowed_values.length → ∀ j, j < d.allowed_values.length →
      i ≠ j → s₂ i ≠ s₂ j) :
    dedupValueset s₁ d = dedupValueset s₂ d := by
  unfold dedupValueset
  have hmask := dedupGo_maskedEq (d.allowed_values.map keyOf) s₁ s₂
    d.allowed_values.length hf₁ hf₂ hi₁ hi₂ d.allowed_values 0 [] []
    (fun v hv => List.mem_map_of_mem keyOf hv)
    (by omega) rfl (by simp) (by simp)
  rw [maskedEq_values _ _ _ hmask]

/-- C3: compiling (converting and deduplicating) the same relationship
twice — with different draws of the `uuid4` supply, the compiler's only
non-input-determined datum — yields definitions with identical
`(code, system)` key sequences in `allowed_values` and identical content
hashes: the convert-then-deduplicate pipeline is a deterministic function
of the relationship. -/
theorem c3_convert_dedup_deterministic (relationship : VSRelationship)
    (s₁ s₂ : Nat → String) (base : VSDef)
    (hbase : buildValuesetDefinition relationship = .ok base)
    (hf₁ : ∀ i, i < base.allowed_values.length → s₁ i ∉ base.allowed_values.map keyOf)
    (hf₂ : ∀ i, i < base.allowed_values.length → s₂ i ∉ base.allowed_values.map keyOf)
    (hi₁ : ∀ i, i < base.allowed_values.length → ∀ j, j < base.allowed_values.length →
      i ≠ j → s₁ i ≠ s₁ j)
    (hi₂ : ∀ i, i < base.allowed_values.length → ∀ j, j < base.allowed_values.length →
      i ≠ j → s₂ i ≠ s₂ j) :
    (convertValueset s₁ relationship).map
        (fun d => d.allowed_values.map (fun v => (v.code, v.system)))
      = (convertValueset s₂ relationship).map
        (fun d => d.allowed_values.map (fun v => (v.code, v.system)))
    ∧ (convertValueset s₁ relationship).map vsdefHash
      = (convertValueset s₂ relationship).map vsdefHash := by
  have hd : convertValueset s₁ relationship = convertValueset s₂ relationship := by
    unfold convertValueset
    rw [hbase]
    simp only [Except.map]
    rw [dedupValueset_supply_independent base s₁ s₂ hf₁ hf₂ hi₁ hi₂]
  rw [hd]
  exact ⟨rfl, rfl⟩

/-- C3 witness: a relationship with a genuine key conflict (same
`(code, system)`, disagreeing displays), compiled with two different fresh
uuid supplies: key sequences and hashes coincide. -/
theorem c3_convert_dedup_deterministic_witness :
    (convertValueset (fun n => "A" ++ Nat.repr n)
        ⟨⟨some "r1", "R", "url", none, none, none⟩, [],
         [ConceptNode.mk (some "a") (some "A") none (some "s") [],
          ConceptNode.mk (some "a") (some "B") none (some "s") []], [], []⟩).map
        (fun d => d.allowed_values.map (fun v => (v.code, v.system)))
      = (convertValueset (fun n => "B" ++ Nat.repr n)
        ⟨⟨some "r1", "R", "url", none, none, none⟩, [],
         [ConceptNode.mk (some "a") (some "A") none (some "s") [],
          ConceptNode.mk (some "a") (some "B") none (some "s") []], [], []⟩).map
        (fun d => d.allowed_values.map (fun v => (v.code, v.system)))
    ∧ (convertValueset (fun n => "A" ++ Nat.repr n)
        ⟨⟨some "r1", "R", "url", none, none, none⟩, [],
         [ConceptNode.mk (some "a") (some "A") none (some "s") [],
          ConceptNode.mk (some "a") (some "B") none (some "s") []], [], []⟩).map vsdefHash
      = (convertValueset (fun n => "B" ++ Nat.repr n)
        ⟨⟨some "r1", "R", "url", none, none, none⟩, [],
         [ConceptNode.mk (some "a") (some "A") none (some "s") [],
          ConceptNode.mk (some "a") (some "B") none (some "s") []], [], []⟩).map vsdefHash :=
  c3_convert_dedup_deterministic
    ⟨⟨some "r1", "R", "url", none, none, none⟩, [],
     [ConceptNode.mk (some "a") (some "A") none (some "s") [],
      ConceptNode.mk (some "a") (some "B") none (some "s") []], [], []⟩
    (fun n => "A" ++ Nat.repr n) (fun n => "B" ++ Nat.repr n)
    ⟨"R", "r1", "url", none, none, [],
     [⟨"a", [TypeTag.concept], some "s", some "A", none, none⟩,
      ⟨"a", [TypeTag.concept], some "s", some "B", none, none⟩]⟩
    rfl (by decide) (by decide) (by decide) (by decide)

end FHIRGuard
